import Mathlib

/-!
Verification of the wot++ evaluator core (src/backend/eval/eval.cpp).

The evaluator is embedded shallowly:

* `Node` mirrors the AST variant set; the arena (`wpp::AST`, a vector of
  variants) is a `List Node` indexed by `node_t = Nat`.
* The C++ `wpp::Environment` is split into the read-only part (`Env`: base
  path, warning flags, and oracles for the external collaborators: the
  filesystem, the parser/lexer, and subprocess execution) and the mutable
  part (`EvalState`: function table, arena, the modeled process current
  directory, and the diagnostic stream).
* C++ exceptions become the `Except`-shaped first component of the result;
  `Exc.ub` marks executions that are undefined behaviour in the C++
  (out-of-range vector indexing, `std::get` on the wrong variant,
  `std::string::back()` on an empty string, `substr` past the end).
* Recursion is paid for with explicit fuel (`Exc.fuel` when exhausted); the
  loops inside `eval_ast` are factored into helpers parameterised by the
  evaluation function so the recursion stays structural on the fuel.

Strings are Lean `String`s; each `Char` stands for one byte of the C++
`std::string` (the program is byte-oriented; nothing here depends on
multi-byte code points).
-/

namespace Wpp

abbrev node_t := Nat

/-- Position of a token in the source (opaque for this development). -/
abbrev Pos := Nat

/-- Per-call argument scope: parameter name to evaluated value
(`wpp::Arguments`, an `unordered_map`). Keys are unique. -/
abbrev Scope := List (String × String)

/-- First value bound to `k`, mirroring `unordered_map::find`. -/
def scopeFind (k : String) : Scope → Option String
  | [] => none
  | (k2, v2) :: rest => if k2 = k then some v2 else scopeFind k rest

/-- The insert_or_assign operation: replace the value if the key is present, append
otherwise. -/
def scopeInsert (k v : String) : Scope → Scope
  | [] => [(k, v)]
  | (k2, v2) :: rest => if k2 = k then (k2, v) :: rest else (k2, v2) :: scopeInsert k v rest

/-- Function table: mangled name to stack of definition handles
(`wpp::Environment::functions`). -/
abbrev FTable := List (String × List node_t)

def ftFind (k : String) : FTable → Option (List node_t)
  | [] => none
  | (k2, v2) :: rest => if k2 = k then some v2 else ftFind k rest

/-- Replace the stack stored at key `k` (the key must be present for this to
have an effect), mirroring mutation through an `unordered_map` iterator. -/
def ftSet (k : String) (v : List node_t) : FTable → FTable
  | [] => []
  | (k2, v2) :: rest => if k2 = k then (k2, v) :: rest else (k2, v2) :: ftSet k v rest

/-- The emplace operation of `unordered_map` for a key known to be absent. -/
def ftInsert (k : String) (v : List node_t) (t : FTable) : FTable :=
  t ++ [(k, v)]

/-- The erase operation of `unordered_map`. -/
def ftErase (k : String) : FTable → FTable
  | [] => []
  | (k2, v2) :: rest => if k2 = k then rest else (k2, v2) :: ftErase k rest

/-- Model of `wpp::cat(name, arity)`: the mangled key combining identifier and arity. -/
def mangle (name : String) (arity : Nat) : String :=
  name ++ toString arity

/-- Decimal digits of a natural number, most significant first, by
fuel-bounded division (`n + 1` steps always suffice). -/
def natToDecListAux (fuel : Nat) (n : Nat) (acc : List Char) : List Char :=
  match fuel with
  | 0 => acc
  | f + 1 =>
    let d := Char.ofNat (48 + n % 10)
    if n < 10 then d :: acc
    else natToDecListAux f (n / 10) (d :: acc)

/-- Model of `std::to_string` for a non-negative value. -/
def natToDecList (n : Nat) : List Char := natToDecListAux (n + 1) n []

def natToDec (n : Nat) : String := ⟨natToDecList n⟩

/-- Byte classified as whitespace by `std::isspace` (C locale). -/
def isSpaceCh (c : Char) : Bool :=
  c = ' ' ∨ c = '\t' ∨ c = '\n' ∨ c = '\x0b' ∨ c = '\x0c' ∨ c = '\r'

def isDigitCh (c : Char) : Bool := '0' ≤ c ∧ c ≤ '9'

def digitsToNat (l : List Char) : Nat :=
  l.foldl (fun a c => a * 10 + (c.toNat - 48)) 0

/-- Model of `std::stoi`: skip leading whitespace, optional sign, then at least one
decimal digit; trailing junk is ignored; `none` models the thrown
`std::invalid_argument`. (The `int` overflow path is not modeled; the inputs
of interest are small.) -/
def stoiFun (s : String) : Option Int :=
  let t := s.data.dropWhile isSpaceCh
  let core : List Char → Option Int := fun l =>
    let digits := l.takeWhile isDigitCh
    if digits = [] then none else some (digitsToNat digits : Nat)
  match t with
  | '+' :: rest => core rest
  | '-' :: rest => (core rest).map (fun n => -n)
  | rest => core rest

/-- Model of `std::string::find`: index of the first occurrence of `p` in `s`, `none`
for `npos`. An empty pattern matches at index 0. -/
def strFind (s p : List Char) : Option Nat :=
  if p.isPrefixOf s then some 0
  else
    match s with
    | [] => none
    | _ :: t => (strFind t p).map (· + 1)

/-- The core of `intrinsic_find` on already-evaluated strings (eval.cpp:182-197). -/
def findFun (s p : String) : String :=
  match strFind s.data p.data with
  | some i => natToDec i
  | none => ""

inductive SliceErr where
  /-- "end of slice cannot be before the start." -/
  | beforeStart
  /-- "slice extends outside of string bounds." -/
  | outOfBounds
  /-- "start cannot be negative where end is positive." -/
  | negStartNonnegEnd
  /-- The `substr` call made with a negative begin converted to a huge `size_type`:
  the uncaught `std::out_of_range`. -/
  | substrRange
deriving DecidableEq, Repr

/-- The core of `intrinsic_slice` after the two `stoi` calls (eval.cpp:151-179): the
begin/count arithmetic, the three checked failures, and the substring. -/
def sliceCore (s : List Char) (start endv : Int) : Except SliceErr (List Char) :=
  let len : Int := s.length
  let b : Int := if start < 0 then len + start else start
  let cnt : Int := if endv < 0 then (len + endv) - b + 1 else endv - b + 1
  if cnt ≤ 0 then .error .beforeStart
  else if len < b + cnt then .error .outOfBounds
  else if start < 0 ∧ 0 ≤ endv then .error .negStartNonnegEnd
  else if b < 0 then .error .substrRange
  else .ok ((s.drop b.toNat).take cnt.toNat)

/-- The escape table of `intrinsic_escape` (eval.cpp:111-120). -/
def escapeChar (c : Char) : List Char :=
  if c = '"' then ['\\', '"']
  else if c = Char.ofNat 39 then ['\\', Char.ofNat 39]
  else if c = '\n' then ['\\', 'n']
  else if c = '\t' then ['\\', 't']
  else if c = '\r' then ['\\', 'r']
  else [c]

def escapeStr (s : String) : String :=
  ⟨s.data.flatMap escapeChar⟩

/-- The trailing-newline trim of `intrinsic_run` / `intrinsic_pipe`
(eval.cpp:235-236, 259-260). `str.back()` on an empty string is undefined
behaviour in C++, modeled by `none`. -/
def trimTrailingNewline (out : String) : Option String :=
  match out.data.getLast? with
  | none => none
  | some c => some (if c = '\n' then ⟨out.data.dropLast⟩ else out)

/-- The intrinsic kind tags (the TOKEN_* constants used by the dispatch). -/
inductive IntrinsicType where
  | assert
  | error
  | file
  | source
  | escape
  | eval
  | run
  | pipe
  | slice
  | find
  | length
  | log
deriving DecidableEq, Repr

/-- The `intrinsic_arg_n` lookup table (eval.cpp:284-301). -/
def intrinsic_arg_n : IntrinsicType → Nat
  | .slice => 3
  | .find => 2
  | .assert => 2
  | .pipe => 2
  | .error => 1
  | .file => 1
  | .escape => 1
  | .eval => 1
  | .run => 1
  | .source => 1
  | .length => 1
  | .log => 1

/-- The AST node variant set (frontend/parser/ast_nodes.hpp as used by the
evaluator). Child references are arena handles. The absent default case of
a `Map` (`wpp::NODE_EMPTY`) is `none`. -/
inductive Node where
  | String (value : String) (pos : Pos)
  | Concat (lhs rhs : node_t) (pos : Pos)
  | Block (stmts : List node_t) (expr : node_t) (pos : Pos)
  | FnInvoke (identifier : String) (arguments : List node_t) (pos : Pos)
  | Fn (identifier : String) (params : List String) (body : node_t) (pos : Pos)
  | Var (identifier : String) (body : node_t) (pos : Pos)
  | Drop (func : node_t) (pos : Pos)
  | Codeify (expr : node_t) (pos : Pos)
  | Map (test : node_t) (cases : List (node_t × node_t)) (default_case : Option node_t) (pos : Pos)
  | Pre (exprs : List node_t) (stmts : List node_t) (pos : Pos)
  | Intrinsic (type : IntrinsicType) (name : String) (exprs : List node_t) (pos : Pos)
  | Document (stmts : List node_t)
deriving DecidableEq, Repr

/-- The warning bitset (misc/warnings.hpp), one flag per bit. -/
structure Warnings where
  func_redefined : Bool
  param_shadow_func : Bool
  param_shadow_param : Bool
  varfunc_redefined : Bool
deriving DecidableEq, Repr

/-- The mutable half of `wpp::Environment` plus the modeled process state:
the function table and the node arena mutate during evaluation; `cwd` is the
process current directory (used by `file`, `source`, and the run driver);
`diags` is the diagnostic stream (`std::cerr`), receiving warnings and the
output of `log`. -/
structure EvalState where
  functions : FTable
  tree : List Node
  cwd : String
  diags : List String
deriving DecidableEq, Repr

/-- Model of `wpp::warn`: write a warning to the diagnostic stream. The position
formatting is out of scope; only the message is recorded. -/
def warn (msg : String) (σ : EvalState) : EvalState :=
  { σ with diags := σ.diags ++ [msg] }

/-- Evaluation failure: a `wpp::Exception` (position and message), an
execution that is undefined behaviour in the C++ (or an exception type no
handler catches), or fuel exhaustion (the C++ recurses without bound). -/
inductive Exc where
  | exc (pos : Pos) (msg : String)
  | ub (msg : String)
  | fuel
deriving DecidableEq, Repr

abbrev EResult := Except Exc String

/-- The type of the recursive evaluator, abstracted so the loop helpers and
intrinsics can be stated (and verified) for any evaluation function. -/
abbrev EvalFn := node_t → Option Scope → EvalState → EResult × EvalState

/-- The read-only half of `wpp::Environment` together with the interfaces of
the external collaborators (out of scope of the core, abstracted as
oracles): `read_file` takes the current directory and the file name;
`document` is the lexer+parser entry point, taking a source name, the source
text, and the arena to append to, returning the grown arena and the root
handle or a parse failure; `exec1`/`exec2` are `wpp::exec`, returning
captured standard output and the exit code; `parentOfJoin cwd f` is
`(cwd / f).parent_path()` and `relName cwd f` the path passed to the lexer
for diagnostics. -/
structure Env where
  base : String
  warnings : Warnings
  read_file : String → String → Option String
  document : String → String → List Node → Except (Pos × String) (List Node × node_t)
  exec1 : String → String × Int
  exec2 : String → String → String × Int
  parentOfJoin : String → String → String
  relName : String → String → String

/-- The `str += eval_ast(node)` statement loop shared by the `Block` and
`Document` visitors (eval.cpp:496-497, 553-554); also the shape of the
prefix-name loop of `Pre` (eval.cpp:534-535). -/
def eval_stmts (ev : EvalFn) (acc : String) :
    List node_t → Option Scope → EvalState → EResult × EvalState
  | [], _, σ => (.ok acc, σ)
  | s :: rest, args, σ =>
    match ev s args σ with
    | (.error e, σ1) => (.error e, σ1)
    | (.ok r, σ1) => eval_stmts ev (acc ++ r) rest args σ1

/-- The `std::find_if` scan over the arms of a `Map` (eval.cpp:508-510):
evaluate each pattern in declared order, stop at the first one equal to the
test string, and return the handle of the matching body. -/
def eval_cases (ev : EvalFn) (test_str : String) :
    List (node_t × node_t) → Option Scope → EvalState → (Except Exc (Option node_t)) × EvalState
  | [], _, σ => (.ok none, σ)
  | (p, b) :: rest, args, σ =>
    match ev p args σ with
    | (.error e, σ1) => (.error e, σ1)
    | (.ok pv, σ1) =>
      if test_str = pv then (.ok (some b), σ1)
      else eval_cases ev test_str rest args σ1

/-- The argument-binding loop of the `FnInvoke` visitor (eval.cpp:390-403):
walk the caller argument handles in lockstep with the callee parameter
names (`params[i]`; a call with more arguments than parameters indexes out
of range in the C++). Note that on the branch where the parameter name is
not yet bound the source evaluates `caller_args[i]` a second time inside
`insert_or_assign`, and binds the second result. -/
def eval_args (w : Warnings) (ev : EvalFn) (callee_name : String) :
    List node_t → List String → Scope → Option Scope → EvalState → (Except Exc Scope) × EvalState
  | [], _, env_args, _, σ => (.ok env_args, σ)
  | _ :: _, [], _, _, σ => (.error (.ub "params index out of range"), σ)
  | ca :: cas, p :: ps, env_args, args, σ =>
    match ev ca args σ with
    | (.error e, σ1) => (.error e, σ1)
    | (.ok result, σ1) =>
      match scopeFind p env_args with
      | some _ =>
        let σ2 := if w.param_shadow_param then
            warn ("parameter " ++ p ++ " inside function " ++ callee_name ++
              " shadows parameter from parent scope.") σ1
          else σ1
        eval_args w ev callee_name cas ps (scopeInsert p result env_args) args σ2
      | none =>
        match ev ca args σ1 with
        | (.error e, σ2) => (.error e, σ2)
        | (.ok result2, σ2) =>
          eval_args w ev callee_name cas ps (scopeInsert p result2 env_args) args σ2

/-- The statement loop of the `Pre` visitor (eval.cpp:530-549). For an `Fn`
statement the prefix expressions are evaluated in reverse order, the
resulting string is prepended to the identifier in place, and the renamed
definition is evaluated; a nested `Pre` gets the prefix expressions of this scope appended to its own list; any other statement is evaluated
unchanged. The per-statement outputs are concatenated. -/
def eval_pre_stmts (ev : EvalFn) (exprs : List node_t) (acc : String) :
    List node_t → Option Scope → EvalState → EResult × EvalState
  | [], _, σ => (.ok acc, σ)
  | stmt :: rest, args, σ =>
    match σ.tree.get? stmt with
    | some (.Fn idf ps bd fpos) =>
      match eval_stmts ev "" exprs.reverse args σ with
      | (.error e, σ1) => (.error e, σ1)
      | (.ok nm, σ1) =>
        let σ2 := { σ1 with tree := σ1.tree.set stmt (.Fn (nm ++ idf) ps bd fpos) }
        match ev stmt args σ2 with
        | (.error e, σ3) => (.error e, σ3)
        | (.ok r, σ3) => eval_pre_stmts ev exprs (acc ++ r) rest args σ3
    | some (.Pre pexprs pstmts ppos) =>
      let σ1 := { σ with tree := σ.tree.set stmt (.Pre (pexprs ++ exprs) pstmts ppos) }
      match ev stmt args σ1 with
      | (.error e, σ2) => (.error e, σ2)
      | (.ok r, σ2) => eval_pre_stmts ev exprs (acc ++ r) rest args σ2
    | _ =>
      match ev stmt args σ with
      | (.error e, σ1) => (.error e, σ1)
      | (.ok r, σ1) => eval_pre_stmts ev exprs (acc ++ r) rest args σ1

/-- Model of `intrinsic_assert` (eval.cpp:22-42). -/
def intrinsic_assert (ev : EvalFn) (a b : node_t) (pos : Pos) (args : Option Scope)
    (σ : EvalState) : EResult × EvalState :=
  match ev a args σ with
  | (.error e, σ1) => (.error e, σ1)
  | (.ok str_a, σ1) =>
    match ev b args σ1 with
    | (.error e, σ2) => (.error e, σ2)
    | (.ok str_b, σ2) =>
      if str_a ≠ str_b then (.error (.exc pos "assertion failed!"), σ2)
      else (.ok "", σ2)

/-- Model of `intrinsic_error` (eval.cpp:45-49). -/
def intrinsic_error (ev : EvalFn) (expr : node_t) (pos : Pos) (args : Option Scope)
    (σ : EvalState) : EResult × EvalState :=
  match ev expr args σ with
  | (.error e, σ1) => (.error e, σ1)
  | (.ok msg, σ1) => (.error (.exc pos msg), σ1)

/-- Model of `intrinsic_file` (eval.cpp:52-62): resolve relative to the current
directory, read, and return the contents. -/
def intrinsic_file (env : Env) (ev : EvalFn) (expr : node_t) (pos : Pos) (args : Option Scope)
    (σ : EvalState) : EResult × EvalState :=
  match ev expr args σ with
  | (.error e, σ1) => (.error e, σ1)
  | (.ok fname, σ1) =>
    match env.read_file σ1.cwd fname with
    | some contents => (.ok contents, σ1)
    | none => (.error (.exc pos ("failed reading file " ++ fname)), σ1)

/-- Model of `intrinsic_source` (eval.cpp:65-96). The old path is saved, the file is
read and lexed/parsed (both before any directory change), the current
directory is switched to the parent of the included file, the sub-document is
evaluated, and the old path is restored — but only on the successful return
path: a throw from the recursive `eval_ast` propagates past the restoring
`current_path(old_path)` call. -/
def intrinsic_source (env : Env) (ev : EvalFn) (expr : node_t) (pos : Pos) (args : Option Scope)
    (σ : EvalState) : EResult × EvalState :=
  match ev expr args σ with
  | (.error e, σ1) => (.error e, σ1)
  | (.ok fname, σ1) =>
    let old_path := σ1.cwd
    let new_parent := env.parentOfJoin σ1.cwd fname
    match env.read_file σ1.cwd fname with
    | none => (.error (.exc pos ("file " ++ fname ++ " not found.")), σ1)
    | some file =>
      match env.document (env.relName σ1.cwd fname) file σ1.tree with
      | .error pe => (.error (.exc pe.1 pe.2), σ1)
      | .ok (tree2, root) =>
        let σ2 := { σ1 with tree := tree2, cwd := new_parent }
        match ev root args σ2 with
        | (.ok s, σ3) => (.ok s, { σ3 with cwd := old_path })
        | (.error e, σ3) => (.error e, σ3)

/-- Model of `intrinsic_log` (eval.cpp:99-102): write to the diagnostic stream. -/
def intrinsic_log (ev : EvalFn) (expr : node_t) (args : Option Scope)
    (σ : EvalState) : EResult × EvalState :=
  match ev expr args σ with
  | (.error e, σ1) => (.error e, σ1)
  | (.ok msg, σ1) => (.ok "", warn msg σ1)

/-- Model of `intrinsic_eval` (eval.cpp:205-221): lex/parse the evaluated code with
source name `<eval>` into the shared arena and evaluate the result; a
`wpp::Exception` from the parse or the evaluation is wrapped with the prefix
"inside eval: " at the call-site position. -/
def intrinsic_eval (env : Env) (ev : EvalFn) (expr : node_t) (pos : Pos) (args : Option Scope)
    (σ : EvalState) : EResult × EvalState :=
  match ev expr args σ with
  | (.error e, σ1) => (.error e, σ1)
  | (.ok code, σ1) =>
    match env.document "<eval>" code σ1.tree with
    | .error pe => (.error (.exc pos ("inside eval: " ++ pe.2)), σ1)
    | .ok (tree2, root) =>
      match ev root args { σ1 with tree := tree2 } with
      | (.ok s, σ2) => (.ok s, σ2)
      | (.error (.exc _ m), σ2) => (.error (.exc pos ("inside eval: " ++ m)), σ2)
      | (.error e, σ2) => (.error e, σ2)

/-- Model of `intrinsic_run` (eval.cpp:224-242): execute, trim one trailing newline
(a `str.back()` read that is undefined behaviour when the captured output is
empty), then fail on a non-zero exit code. -/
def intrinsic_run (env : Env) (ev : EvalFn) (expr : node_t) (pos : Pos) (args : Option Scope)
    (σ : EvalState) : EResult × EvalState :=
  match ev expr args σ with
  | (.error e, σ1) => (.error e, σ1)
  | (.ok cmd, σ1) =>
    let (out, rc) := env.exec1 cmd
    match trimTrailingNewline out with
    | none => (.error (.ub "back called on empty captured output"), σ1)
    | some trimmed =>
      if rc ≠ 0 then (.error (.exc pos "subprocess exited with non-zero status."), σ1)
      else (.ok trimmed, σ1)

/-- Model of `intrinsic_pipe` (eval.cpp:245-266): same as `run` with the second
argument piped to standard input. -/
def intrinsic_pipe (env : Env) (ev : EvalFn) (cmd : node_t) (data : node_t) (pos : Pos)
    (args : Option Scope) (σ : EvalState) : EResult × EvalState :=
  match ev cmd args σ with
  | (.error e, σ1) => (.error e, σ1)
  | (.ok cmd_str, σ1) =>
    match ev data args σ1 with
    | (.error e, σ2) => (.error e, σ2)
    | (.ok data_str, σ2) =>
      let (out, rc) := env.exec2 cmd_str data_str
      match trimTrailingNewline out with
      | none => (.error (.ub "back called on empty captured output"), σ2)
      | some trimmed =>
        if rc ≠ 0 then (.error (.exc pos "subprocess exited with non-zero status."), σ2)
        else (.ok trimmed, σ2)

/-- Model of `intrinsic_slice` (eval.cpp:125-180): evaluate the three arguments,
parse the range with `stoi`, and defer to `sliceCore`. -/
def intrinsic_slice (ev : EvalFn) (string_expr start_expr end_expr : node_t) (pos : Pos)
    (args : Option Scope) (σ : EvalState) : EResult × EvalState :=
  match ev string_expr args σ with
  | (.error e, σ1) => (.error e, σ1)
  | (.ok s, σ1) =>
    match ev start_expr args σ1 with
    | (.error e, σ2) => (.error e, σ2)
    | (.ok start_raw, σ2) =>
      match ev end_expr args σ2 with
      | (.error e, σ3) => (.error e, σ3)
      | (.ok end_raw, σ3) =>
        match stoiFun start_raw, stoiFun end_raw with
        | some st, some en =>
          match sliceCore s.data st en with
          | .ok l => (.ok ⟨l⟩, σ3)
          | .error .beforeStart =>
            (.error (.exc pos "end of slice cannot be before the start."), σ3)
          | .error .outOfBounds =>
            (.error (.exc pos "slice extends outside of string bounds."), σ3)
          | .error .negStartNonnegEnd =>
            (.error (.exc pos "start cannot be negative where end is positive."), σ3)
          | .error .substrRange => (.error (.ub "substr past the end"), σ3)
        | _, _ => (.error (.exc pos "slice range must be numerical."), σ3)

/-- Model of the `intrinsic_find` wrapper (eval.cpp:182-197). -/
def intrinsic_find (ev : EvalFn) (string_expr pattern_expr : node_t) (args : Option Scope)
    (σ : EvalState) : EResult × EvalState :=
  match ev string_expr args σ with
  | (.error e, σ1) => (.error e, σ1)
  | (.ok s, σ1) =>
    match ev pattern_expr args σ1 with
    | (.error e, σ2) => (.error e, σ2)
    | (.ok p, σ2) => (.ok (findFun s p), σ2)

/-- Model of `intrinsic_length` (eval.cpp:199-203). -/
def intrinsic_length (ev : EvalFn) (string_expr : node_t) (args : Option Scope)
    (σ : EvalState) : EResult × EvalState :=
  match ev string_expr args σ with
  | (.error e, σ1) => (.error e, σ1)
  | (.ok s, σ1) => (.ok (natToDec s.length), σ1)

/-- Model of the `intrinsic_escape` wrapper (eval.cpp:105-123). -/
def intrinsic_escape (ev : EvalFn) (expr : node_t) (args : Option Scope)
    (σ : EvalState) : EResult × EvalState :=
  match ev expr args σ with
  | (.error e, σ1) => (.error e, σ1)
  | (.ok s, σ1) => (.ok (escapeStr s), σ1)

/-- The function-lookup-and-call tail of the `FnInvoke` visitor
(eval.cpp:368-406), reached when the callee name is not a bound parameter:
look up the mangled name, take the top of the definition stack, fetch the
`Fn` node, build the callee scope by copying the caller scope and binding
the evaluated arguments, and evaluate the body under the new scope. -/
def fn_invoke_call (env : Env) (ev : EvalFn) (caller_name : String) (caller_args : List node_t)
    (caller_pos : Pos) (args : Option Scope) (σ : EvalState) : EResult × EvalState :=
  match ftFind (mangle caller_name caller_args.length) σ.functions with
  | none => (.error (.exc caller_pos ("func not found: " ++ caller_name ++ ".")), σ)
  | some stack =>
    match stack.getLast? with
    | none => (.error (.exc caller_pos ("func not found: " ++ caller_name ++ ".")), σ)
    | some fid =>
      match σ.tree.get? fid with
      | some (.Fn callee_name params body _callee_pos) =>
        let env_args : Scope := match args with
          | some s => s
          | none => []
        match eval_args env.warnings ev callee_name caller_args params env_args args σ with
        | (.error e, σ1) => (.error e, σ1)
        | (.ok env_args2, σ1) => ev body (some env_args2) σ1
      | _ => (.error (.ub "tree.get expected an Fn node"), σ)

/-- The core of the evaluator: `eval_ast` (eval.cpp:275-559), with explicit
fuel for the recursion. -/
def eval_ast (env : Env) : Nat → EvalFn
  | 0 => fun _ _ σ => (.error .fuel, σ)
  | fuel + 1 => fun node_id args σ =>
    match σ.tree.get? node_id with
    | none => (.error (.ub "node index out of range"), σ)
    | some (.Intrinsic type name exprs pos) =>
      let n_args := intrinsic_arg_n type
      if n_args ≠ exprs.length then
        (.error (.exc pos (name ++ " takes exactly " ++ natToDec n_args ++ " arguments.")), σ)
      else
        match type, exprs with
        | .assert, [a, b] => intrinsic_assert (eval_ast env fuel) a b pos args σ
        | .error, [e] => intrinsic_error (eval_ast env fuel) e pos args σ
        | .file, [e] => intrinsic_file env (eval_ast env fuel) e pos args σ
        | .source, [e] => intrinsic_source env (eval_ast env fuel) e pos args σ
        | .escape, [e] => intrinsic_escape (eval_ast env fuel) e args σ
        | .eval, [e] => intrinsic_eval env (eval_ast env fuel) e pos args σ
        | .run, [e] => intrinsic_run env (eval_ast env fuel) e pos args σ
        | .pipe, [c, d] => intrinsic_pipe env (eval_ast env fuel) c d pos args σ
        | .slice, [s, a, b] => intrinsic_slice (eval_ast env fuel) s a b pos args σ
        | .find, [s, p] => intrinsic_find (eval_ast env fuel) s p args σ
        | .length, [s] => intrinsic_length (eval_ast env fuel) s args σ
        | .log, [e] => intrinsic_log (eval_ast env fuel) e args σ
        | _, _ => (.error (.ub "intrinsic arity table violated"), σ)
    | some (.FnInvoke caller_name caller_args caller_pos) =>
      -- Check if parameter (eval.cpp:353-366).
      match args with
      | some s =>
        match scopeFind caller_name s with
        | some v =>
          if caller_args.length > 0 then
            (.error (.exc caller_pos
              ("calling argument " ++ caller_name ++ " as if it were a function.")), σ)
          else
            let σ1 := if env.warnings.param_shadow_func ∧
                (ftFind (mangle caller_name 0) σ.functions).isSome then
                warn ("parameter " ++ caller_name ++ " is shadowing a function.") σ
              else σ
            (.ok v, σ1)
        | none => fn_invoke_call env (eval_ast env fuel) caller_name caller_args caller_pos args σ
      | none => fn_invoke_call env (eval_ast env fuel) caller_name caller_args caller_pos args σ
    | some (.Fn name params _body _pos) =>
      -- Register the definition (eval.cpp:409-424).
      let key := mangle name params.length
      match ftFind key σ.functions with
      | some stack =>
        let σ1 := if env.warnings.func_redefined then
            warn ("function " ++ name ++ " redefined.") σ
          else σ
        (.ok "", { σ1 with functions := ftSet key (stack ++ [node_id]) σ1.functions })
      | none => (.ok "", { σ with functions := ftInsert key [node_id] σ.functions })
    | some (.Codeify expr pos) => intrinsic_eval env (eval_ast env fuel) expr pos args σ
    | some (.Var name body pos) =>
      -- First evaluation of a variable (eval.cpp:431-454): memoise the body,
      -- turn the node into a zero-parameter Fn carrying the mangled name,
      -- and register it at arity 0.
      let func_name := mangle name 0
      match eval_ast env fuel body args σ with
      | (.error e, σ1) => (.error e, σ1)
      | (.ok v, σ1) =>
        let σ2 := { σ1 with
          tree := (σ1.tree.set body (.String v pos)).set node_id (.Fn func_name [] body pos) }
        match ftFind func_name σ2.functions with
        | some stack =>
          let σ3 := if env.warnings.varfunc_redefined then
              warn ("function/variable " ++ name ++ " redefined.") σ2
            else σ2
          (.ok "", { σ3 with functions := ftSet func_name (stack ++ [node_id]) σ3.functions })
        | none => (.ok "", { σ2 with functions := ftInsert func_name [node_id] σ2.functions })
    | some (.Drop func_id pos) =>
      -- eval.cpp:456-482. Note the branch shape: the stack is popped when it
      -- is non-empty, and the key erased only when the stack was already
      -- empty before this drop.
      match σ.tree.get? func_id with
      | some (.FnInvoke caller_name caller_args _cpos) =>
        let key := mangle caller_name caller_args.length
        match ftFind key σ.functions with
        | some stack =>
          if stack = [] then (.ok "", { σ with functions := ftErase key σ.functions })
          else (.ok "", { σ with functions := ftSet key stack.dropLast σ.functions })
        | none =>
          (.error (.exc pos ("cannot drop undefined function " ++ caller_name ++ " (" ++
            natToDec caller_args.length ++ " parameters).")), σ)
      | some _ => (.error (.exc pos "invalid function passed to drop."), σ)
      | none => (.error (.ub "node index out of range"), σ)
    | some (.String value _pos) => (.ok value, σ)
    | some (.Concat lhs rhs _pos) =>
      match eval_ast env fuel lhs args σ with
      | (.error e, σ1) => (.error e, σ1)
      | (.ok l, σ1) =>
        match eval_ast env fuel rhs args σ1 with
        | (.error e, σ2) => (.error e, σ2)
        | (.ok r, σ2) => (.ok (l ++ r), σ2)
    | some (.Block stmts expr _pos) =>
      -- eval.cpp:493-500: the statements are evaluated and their output
      -- accumulated, then the accumulator is overwritten by the trailing
      -- value of the trailing expression.
      match eval_stmts (eval_ast env fuel) "" stmts args σ with
      | (.error e, σ1) => (.error e, σ1)
      | (.ok _acc, σ1) => eval_ast env fuel expr args σ1
    | some (.Map test cases default_case pos) =>
      match eval_ast env fuel test args σ with
      | (.error e, σ1) => (.error e, σ1)
      | (.ok test_str, σ1) =>
        match eval_cases (eval_ast env fuel) test_str cases args σ1 with
        | (.error e, σ2) => (.error e, σ2)
        | (.ok (some b), σ2) => eval_ast env fuel b args σ2
        | (.ok none, σ2) =>
          match default_case with
          | none => (.error (.exc pos "no matches found."), σ2)
          | some d => eval_ast env fuel d args σ2
    | some (.Pre exprs stmts _pos) =>
      eval_pre_stmts (eval_ast env fuel) exprs "" stmts args σ
    | some (.Document stmts) => eval_stmts (eval_ast env fuel) "" stmts args σ

/-! ## Specification predicates -/

/-- Predicate: `p` occurs contiguously inside `s`. -/
def IsSubstrOf (p s : List Char) : Prop :=
  ∃ l r, s = l ++ p ++ r

/-- A run of the arm scan in which every pattern of the given arms evaluates
successfully to a value different from the test string, threading the state
from the first component to the second. Used to state how `Map` evaluation
walks its arms in order. -/
def NoMatchRun (env : Env) (fuel : Nat) (tv : String) (args : Option Scope) :
    List (node_t × node_t) → EvalState → EvalState → Prop
  | [], σa, σb => σa = σb
  | (p, _) :: rest, σa, σb =>
    ∃ pv σm, eval_ast env fuel p args σa = (.ok pv, σm) ∧ tv ≠ pv ∧
      NoMatchRun env fuel tv args rest σm σb

/-! ## Concrete fixtures

Closed scenarios used by the counterexamples and witnesses. The oracle
fields play the role of the host filesystem, parser, and shell. -/

/-- Warnings all disabled (keeps the diagnostic stream empty in closed
computations). -/
def warnOff : Warnings := ⟨false, false, false, false⟩

/-- An environment whose external collaborators are inert. -/
def envInert : Env := {
  base := ""
  warnings := warnOff
  read_file := fun _ _ => none
  document := fun _ _ _ => .error (0, "parse error")
  exec1 := fun _ => ("", 1)
  exec2 := fun _ _ => ("", 1)
  parentOfJoin := fun _ f => f
  relName := fun _ f => f }

/-- Same inert environment with every warning enabled (the default flag set
of main.cpp:32-37). -/
def envWarn : Env := { envInert with warnings := ⟨true, true, true, true⟩ }

def mkState (t : List Node) : EvalState := ⟨[], t, "/top", []⟩

/-- A document `source("sub/doc.wpp")` whose included file is in the
subdirectory `/inc`; the parse oracle appends the included document to the
arena. In the failing variant the included document is `error("boom")`. -/
def tree_c1 : List Node := [.String "sub/doc.wpp" 0, .Intrinsic .source "source" [0] 1]

def env_c1_ok : Env := { envInert with
  read_file := fun _ _ => some "included text"
  document := fun _ _ t => .ok (t ++ [.String "included output" 7], t.length)
  parentOfJoin := fun _ _ => "/inc" }

def env_c1_fail : Env := { envInert with
  read_file := fun _ _ => some "included text"
  document := fun _ _ t => .ok (t ++ [.String "boom" 7, .Intrinsic .error "error" [t.length] 7],
    t.length + 1)
  parentOfJoin := fun _ _ => "/inc" }

/-- Fixture: `let f(p) => "body"; f({ let g => "gbody"; "argval" })`: the argument
expression is a block whose side effect is the definition of `g`. -/
def tree_c2 : List Node :=
  [.String "body" 0, .Fn "f" ["p"] 0 0, .String "gbody" 0, .Fn "g" [] 2 0,
   .String "argval" 0, .Block [3] 4 0, .FnInvoke "f" [5] 0, .Document [1, 6]]

/-- Define `f` at arity 0, then drop it. -/
def tree_c3 : List Node :=
  [.String "b" 0, .Fn "f" [] 0 0, .FnInvoke "f" [] 0, .Drop 2 0, .Document [1, 3]]

/-- A single `Var` definition `let x => "A"`. -/
def tree_c4 : List Node := [.String "A" 0, .Var "x" 0 0, .Document [1]]

/-- Fixture: `f(q) => "lit"` called as `f("W")` followed by a reference to the
caller parameter `q`: node 5 is `Concat (f("W")) q`. -/
def tree_c5 : List Node :=
  [.String "lit" 0, .Fn "f" ["q"] 0 0, .String "W" 0, .FnInvoke "f" [2] 0,
   .FnInvoke "q" [] 0, .Concat 3 4 0]

def state_c5 : EvalState := ⟨[("f1", [1])], tree_c5, "/top", []⟩

/-- Fixture: `match "b" { "a" -> "1", "b" -> "2", "x" -> "3" }`. -/
def tree_c6 : List Node :=
  [.String "b" 0, .String "a" 0, .String "1" 0, .String "b" 0, .String "2" 0,
   .String "x" 0, .String "3" 0, .Map 0 [(1, 2), (3, 4), (5, 6)] none 9]

/-- Fixture: `{ "s1" "v" }`: one statement producing output, then a trailing
expression. -/
def tree_c7 : List Node := [.String "s1" 0, .String "v" 0, .Block [0] 1 0]

/-- Node 2 is `Pre [] ["a"]`, node 3 is `Block ["a"] ""` (same statement
list, empty trailing expression at node 1). -/
def tree_c8 : List Node := [.String "a" 0, .String "" 0, .Pre [] [0] 0, .Block [0] 1 0]

/-- Fixture: `run` of a command that exits 0 with empty captured output (for
example `true`). -/
def tree_c10 : List Node := [.String "true" 0, .Intrinsic .run "run" [0] 1]

def env_c10 : Env := { envInert with exec1 := fun _ => ("", 0) }

/-! ## Helper lemmas -/

theorem natToDecListAux_ne_nil (fuel n : Nat) (acc : List Char) (h : acc ≠ []) :
    natToDecListAux fuel n acc ≠ [] := by
  induction fuel generalizing n acc with
  | zero => exact h
  | succ f ih =>
    simp only [natToDecListAux]
    split
    · simp
    · exact ih (n / 10) _ (by simp)

theorem natToDecList_ne_nil (n : Nat) : natToDecList n ≠ [] := by
  simp only [natToDecList, natToDecListAux]
  split
  · simp
  · exact natToDecListAux_ne_nil n (n / 10) _ (by simp)

theorem natToDec_ne_empty (n : Nat) : natToDec n ≠ "" := by
  intro h
  exact natToDecList_ne_nil n (congrArg String.data h)

theorem string_nil_append (s : String) : "" ++ s = s := by
  cases s
  rfl

theorem scopeFind_scopeInsert (k v x : String) (s : Scope) :
    scopeFind x (scopeInsert k v s) = if k = x then some v else scopeFind x s := by
  induction s with
  | nil => simp [scopeInsert, scopeFind]
  | cons hd tl ih =>
    obtain ⟨k2, v2⟩ := hd
    simp only [scopeInsert]
    by_cases h1 : k2 = k
    · subst h1
      by_cases h2 : k2 = x
      · subst h2
        simp [scopeFind]
      · simp [scopeFind, h2]
    · rw [if_neg h1]
      simp only [scopeFind]
      by_cases h2 : k2 = x
      · subst h2
        rw [if_pos rfl, if_pos rfl, if_neg (fun hkx => h1 hkx.symm)]
      · rw [if_neg h2, if_neg h2, ih]

theorem ftFind_ftSet_found (k : String) (v s0 : List node_t) (t : FTable)
    (h : ftFind k t = some s0) : ftFind k (ftSet k v t) = some v := by
  induction t with
  | nil => simp [ftFind] at h
  | cons hd tl ih =>
    obtain ⟨k2, v2⟩ := hd
    by_cases h2 : k2 = k
    · simp [ftSet, ftFind, h2]
    · simp only [ftFind, if_neg h2] at h
      simp [ftSet, ftFind, h2, ih h]

theorem ftFind_ftInsert_new (k : String) (v : List node_t) (t : FTable)
    (h : ftFind k t = none) : ftFind k (ftInsert k v t) = some v := by
  induction t with
  | nil => simp [ftInsert, ftFind]
  | cons hd tl ih =>
    obtain ⟨k2, v2⟩ := hd
    by_cases h2 : k2 = k
    · simp [ftFind, h2] at h
    · simp only [ftFind, if_neg h2] at h
      simp only [ftInsert, List.cons_append, ftFind, if_neg h2]
      exact ih h

theorem list_set_get_self {α : Type} (l : List α) (i : Nat) (a : α)
    (h : l.get? i = some a) : l.set i a = l := by
  induction l generalizing i with
  | nil => simp [List.get?] at h
  | cons hd tl ih =>
    cases i with
    | zero =>
      simp [List.get?] at h
      simp [List.set, h]
    | succ n =>
      simp only [List.get?] at h
      simp [List.set, ih n h]

theorem list_get_set_same {α : Type} (l : List α) (i : Nat) (a : α) (h : i < l.length) :
    (l.set i a).get? i = some a := by
  induction l generalizing i with
  | nil => simp at h
  | cons hd tl ih =>
    cases i with
    | zero => rfl
    | succ n =>
      simp only [List.set, List.get?]
      exact ih n (by simpa using h)

theorem list_get_set_other {α : Type} (l : List α) (i j : Nat) (a : α) (h : i ≠ j) :
    (l.set i a).get? j = l.get? j := by
  induction l generalizing i j with
  | nil => simp
  | cons hd tl ih =>
    cases i with
    | zero =>
      cases j with
      | zero => exact absurd rfl h
      | succ m => rfl
    | succ n =>
      cases j with
      | zero => rfl
      | succ m =>
        simp only [List.set, List.get?]
        exact ih n m (fun he => h (by rw [he]))

theorem evalState_eta (σ : EvalState) : ({ σ with tree := σ.tree } : EvalState) = σ := rfl

/-! ## C7 -/

/-- C7: a `Block` evaluates every statement in order, threading all of
their side effects into the state, and then returns exactly the trailing
evaluation of the trailing expression: whatever statement output `acc` was accumulated,
it is discarded and the result (value and state) is that of the trailing
expression evaluated in the post-statement state. -/
theorem c7_block_returns_only_trailing_value
    (env : Env) (fuel : Nat) (bnode e : node_t) (stmts : List node_t) (bpos : Pos)
    (args : Option Scope) (σ σ1 : EvalState) (acc : String) (res : EResult × EvalState)
    (hn : σ.tree.get? bnode = some (.Block stmts e bpos))
    (hs : eval_stmts (eval_ast env fuel) "" stmts args σ = (.ok acc, σ1))
    (he : eval_ast env fuel e args σ1 = res) :
    eval_ast env (fuel + 1) bnode args σ = res := by
  simp only [eval_ast, hn, hs, he]

/-- C7 witness: `{ "s1" "v" }` evaluates to "v"; the statement output "s1"
does not appear in the result. -/
theorem c7_block_returns_only_trailing_value_witness :
    eval_ast envWarn 2 2 none (mkState tree_c7) = (.ok "v", mkState tree_c7) :=
  c7_block_returns_only_trailing_value envWarn 1 2 1 [0] 0 none (mkState tree_c7)
    (mkState tree_c7) "s1" (.ok "v", mkState tree_c7) rfl rfl rfl

/-! ## C1 -/

/-- C1: the `source` intrinsic restores the saved current directory on the
successful path, but a failure while evaluating the included sub-document
propagates past the restoring `current_path(old_path)` call and leaves the
process in the parent directory of the included file. Here the same include is
run twice: with an included document that evaluates to a string
(directory restored to "/top") and with one that throws (directory left at
"/inc"). -/
theorem c1_source_cwd_not_restored_on_failure :
    (eval_ast env_c1_ok 5 1 none (mkState tree_c1)).1 = .ok "included output" ∧
    (eval_ast env_c1_ok 5 1 none (mkState tree_c1)).2.cwd = "/top" ∧
    (eval_ast env_c1_fail 5 1 none (mkState tree_c1)).1 = .error (.exc 7 "boom") ∧
    (eval_ast env_c1_fail 5 1 none (mkState tree_c1)).2.cwd = "/inc" ∧
    ("/inc" : String) ≠ "/top" := by
  refine ⟨rfl, rfl, rfl, rfl, by decide⟩

/-! ## C2 -/

/-- C2: in the `FnInvoke` visitor an argument expression bound to a fresh
parameter is evaluated twice (eval.cpp:391 and again inside the
`insert_or_assign` at eval.cpp:401). Evaluating
`let f(p) => "body"; f({ let g => "gbody"; "argval" })` registers `g`
twice: the stack for key `g0` ends as `[3, 3]`, although a single
evaluation of the argument would have pushed node 3 once. -/
theorem c2_fninvoke_argument_evaluated_twice :
    (eval_ast envWarn 6 7 none (mkState tree_c2)).1 = .ok "body" ∧
    ftFind "g0" (eval_ast envWarn 6 7 none (mkState tree_c2)).2.functions = some [3, 3] ∧
    (eval_ast envWarn 6 7 none (mkState tree_c2)).2.diags = ["function g redefined."] := by
  refine ⟨rfl, rfl, rfl⟩

/-! ## C3 -/

/-- C3: a `Drop` that empties a definition stack keeps the key in the
function table with an empty stack (the source pops when the stack is
non-empty and erases only when it was already empty, eval.cpp:471-477).
After `define f/0; drop f/0` the key `f0` is still present, mapping to
`[]`, although the claim requires the key to be absent when the height
reaches zero. -/
theorem c3_drop_leaves_empty_stack_in_table :
    (eval_ast envWarn 5 4 none (mkState tree_c3)).1 = .ok "" ∧
    ftFind "f0" (eval_ast envWarn 5 4 none (mkState tree_c3)).2.functions = some [] := by
  refine ⟨rfl, rfl⟩

/-! ## C4 counterexample -/

/-- C4 counterexample: on first evaluation of `let x => "A"` the `Var` node
is replaced by a zero-parameter `Fn` whose identifier is the mangled name
"x0" (`wpp::cat(name, 0)`, eval.cpp:435 and 442), not the plain
identifier "x" stated by the claim. -/
theorem c4_var_replacement_uses_mangled_identifier :
    (eval_ast envWarn 5 2 none (mkState tree_c4)).1 = .ok "" ∧
    (eval_ast envWarn 5 2 none (mkState tree_c4)).2.tree.get? 1 = some (.Fn "x0" [] 0 0) ∧
    ("x0" : String) ≠ "x" := by
  refine ⟨rfl, rfl, by decide⟩

/-! ## C8 counterexample -/

/-- C8 counterexample: with the statement list `["a"]`, the `Pre` with an
empty prefix list returns "a" (the concatenated statement outputs,
eval.cpp:547) while the `Block` with the same statements and an empty
trailing expression returns "" (the trailing expression overwrites the
accumulator, eval.cpp:499), so the returned strings differ. -/
theorem c8_pre_vs_block_returned_string_differs :
    (eval_ast envWarn 3 2 none (mkState tree_c8)).1 = .ok "a" ∧
    (eval_ast envWarn 3 3 none (mkState tree_c8)).1 = .ok "" ∧
    ("a" : String) ≠ "" := by
  refine ⟨rfl, rfl, by decide⟩

/-! ## C9 counterexample -/

/-- C9 counterexample: for the empty pattern, `find("ab", "")` returns "0"
(`std::string::find` matches the empty string at index 0), but
`slice("ab", 0, 0 + 0 - 1)` evaluates `slice("ab", 0, -1)`, which returns
the whole string "ab", not the pattern "". -/
theorem c9_find_slice_relation_fails_for_empty_pattern :
    findFun "ab" "" = "0" ∧
    sliceCore "ab".data 0 ((0 : Int) + 0 - 1) = .ok "ab".data ∧
    "ab".data ≠ ("" : String).data := by
  refine ⟨rfl, rfl, by decide⟩

/-! ## C10 -/

/-- C10: the trailing-newline trim of `run`/`pipe` reads `str.back()`
before checking emptiness (eval.cpp:235, 259); on a command that exits 0
with empty captured output this reads a byte of an empty string (undefined
behaviour), instead of returning the empty output unchanged. The nonempty
cases behave as the claim describes. -/
theorem c10_run_trim_reads_empty_output :
    trimTrailingNewline "" = none ∧
    trimTrailingNewline "out\n" = some "out" ∧
    trimTrailingNewline "out" = some "out" ∧
    (eval_ast env_c10 3 1 none (mkState tree_c10)).1 =
      .error (.ub "back called on empty captured output") := by
  refine ⟨rfl, by decide, by decide, rfl⟩

/-! ## C8 amended -/

/-- With an empty prefix-expression list, the `Pre` statement loop is the
`Block`/`Document` statement loop: the empty prefix evaluates to "", the
in-place identifier write stores the identifier unchanged, and a nested
`Pre` has nothing appended to its expression list. -/
theorem eval_pre_stmts_nil_exprs (ev : EvalFn) (stmts : List node_t) (acc : String)
    (args : Option Scope) (σ : EvalState) :
    eval_pre_stmts ev [] acc stmts args σ = eval_stmts ev acc stmts args σ := by
  induction stmts generalizing acc σ with
  | nil => rfl
  | cons stmt rest ih =>
    cases hg : σ.tree.get? stmt with
    | none =>
      simp only [eval_pre_stmts, eval_stmts, hg]
      cases hev : ev stmt args σ with
      | mk r σ1 =>
        cases r with
        | error e => rfl
        | ok rr => exact ih _ _
    | some v =>
      cases v with
      | Fn idf ps bd fpos =>
        simp only [eval_pre_stmts, eval_stmts, hg, List.reverse_nil]
        rw [string_nil_append, list_set_get_self _ _ _ hg, evalState_eta]
        cases hev : ev stmt args σ with
        | mk r σ1 =>
          cases r with
          | error e => rfl
          | ok rr => exact ih _ _
      | Pre pexprs pstmts ppos =>
        simp only [eval_pre_stmts, eval_stmts, hg, List.append_nil]
        rw [list_set_get_self _ _ _ hg, evalState_eta]
        cases hev : ev stmt args σ with
        | mk r σ1 =>
          cases r with
          | error e => rfl
          | ok rr => exact ih _ _
      | String s p =>
        simp only [eval_pre_stmts, eval_stmts, hg]
        cases hev : ev stmt args σ with
        | mk r σ1 =>
          cases r with
          | error e => rfl
          | ok rr => exact ih _ _
      | Concat a b p =>
        simp only [eval_pre_stmts, eval_stmts, hg]
        cases hev : ev stmt args σ with
        | mk r σ1 =>
          cases r with
          | error e => rfl
          | ok rr => exact ih _ _
      | Block a b p =>
        simp only [eval_pre_stmts, eval_stmts, hg]
        cases hev : ev stmt args σ with
        | mk r σ1 =>
          cases r with
          | error e => rfl
          | ok rr => exact ih _ _
      | FnInvoke a b p =>
        simp only [eval_pre_stmts, eval_stmts, hg]
        cases hev : ev stmt args σ with
        | mk r σ1 =>
          cases r with
          | error e => rfl
          | ok rr => exact ih _ _
      | Var a b p =>
        simp only [eval_pre_stmts, eval_stmts, hg]
        cases hev : ev stmt args σ with
        | mk r σ1 =>
          cases r with
          | error e => rfl
          | ok rr => exact ih _ _
      | Drop a p =>
        simp only [eval_pre_stmts, eval_stmts, hg]
        cases hev : ev stmt args σ with
        | mk r σ1 =>
          cases r with
          | error e => rfl
          | ok rr => exact ih _ _
      | Codeify a p =>
        simp only [eval_pre_stmts, eval_stmts, hg]
        cases hev : ev stmt args σ with
        | mk r σ1 =>
          cases r with
          | error e => rfl
          | ok rr => exact ih _ _
      | Map a b c p =>
        simp only [eval_pre_stmts, eval_stmts, hg]
        cases hev : ev stmt args σ with
        | mk r σ1 =>
          cases r with
          | error e => rfl
          | ok rr => exact ih _ _
      | Intrinsic a b c p =>
        simp only [eval_pre_stmts, eval_stmts, hg]
        cases hev : ev stmt args σ with
        | mk r σ1 =>
          cases r with
          | error e => rfl
          | ok rr => exact ih _ _
      | Document a =>
        simp only [eval_pre_stmts, eval_stmts, hg]
        cases hev : ev stmt args σ with
        | mk r σ1 =>
          cases r with
          | error e => rfl
          | ok rr => exact ih _ _

/-- C8 amended: a `Pre` with an empty prefix list and a `Block` with the
same statements and an empty trailing expression evaluate the statements
identically (same order, same final state, hence the same environment
mutations), but the returned strings differ: the `Pre` returns the
concatenated statement output `acc` while the `Block` returns the trailing
value "" of the trailing expression. They coincide exactly when `acc` is empty. -/
theorem c8_pre_empty_prefix_vs_block
    (env : Env) (fuel : Nat) (pnode bnode e : node_t) (stmts : List node_t)
    (ppos bpos epos : Pos) (args : Option Scope) (σ σ1 : EvalState) (acc : String)
    (hp : σ.tree.get? pnode = some (.Pre [] stmts ppos))
    (hb : σ.tree.get? bnode = some (.Block stmts e bpos))
    (hs : eval_stmts (eval_ast env (fuel + 1)) "" stmts args σ = (.ok acc, σ1))
    (he : σ1.tree.get? e = some (.String "" epos)) :
    eval_ast env (fuel + 1 + 1) pnode args σ = (.ok acc, σ1) ∧
    eval_ast env (fuel + 1 + 1) bnode args σ = (.ok "", σ1) ∧
    (acc = "" →
      eval_ast env (fuel + 1 + 1) pnode args σ = eval_ast env (fuel + 1 + 1) bnode args σ) := by
  have h1 : eval_ast env (fuel + 1 + 1) pnode args σ = (.ok acc, σ1) := by
    rw [eval_ast]
    simp only [hp]
    rw [eval_pre_stmts_nil_exprs]
    exact hs
  have h2 : eval_ast env (fuel + 1 + 1) bnode args σ = (.ok "", σ1) := by
    rw [eval_ast]
    simp only [hb, hs]
    rw [eval_ast]
    simp only [he]
  exact ⟨h1, h2, fun ha => by rw [h1, h2, ha]⟩

/-! ## C5 -/

/-- Keys that are not among the bound parameters keep their caller value in
the scope built by the argument-binding loop. -/
theorem eval_args_keeps_unbound
    (w : Warnings) (ev : EvalFn) (callee : String) (cas : List node_t)
    (ps : List String) (acc : Scope) (args : Option Scope) (σ σ2 : EvalState)
    (s2 : Scope) (x : String)
    (h : eval_args w ev callee cas ps acc args σ = (.ok s2, σ2))
    (hx : ∀ p ∈ ps, p ≠ x) :
    scopeFind x s2 = scopeFind x acc := by
  induction cas generalizing ps acc σ with
  | nil =>
    simp only [eval_args, Prod.mk.injEq, Except.ok.injEq] at h
    rw [← h.1]
  | cons ca cas ih =>
    cases ps with
    | nil => simp [eval_args] at h
    | cons p pst =>
      have hpx : p ≠ x := hx p (by simp)
      have hxt : ∀ q ∈ pst, q ≠ x := fun q hq => hx q (by simp [hq])
      simp only [eval_args] at h
      split at h
      · exact absurd h (by simp)
      · split at h
        · rw [ih pst _ _ h hxt, scopeFind_scopeInsert, if_neg hpx]
        · split at h
          · exact absurd h (by simp)
          · rw [ih pst _ _ h hxt, scopeFind_scopeInsert, if_neg hpx]

/-- C5: caller scopes are isolated from callees. First conjunct: after any
successfully evaluated first operand (in particular an `FnInvoke`, whose
callee may bind or overwrite anything in its own scope), a reference to a
caller parameter `q` still produces the value `v` from the caller scope, so
nothing the callee bound became visible in the scope of the caller. Second
conjunct: the scope built on call entry (a copy of the caller scope
overwritten at the parameter names) agrees with the caller scope on every
name that is not a
parameter of the callee. -/
theorem c5_caller_scope_isolated :
    (∀ (env : Env) (fuel : Nat) (cnode callN qN : node_t) (cpos qpos : Pos) (q : String)
       (s : Scope) (v r : String) (σ σ1 : EvalState),
       σ.tree.get? cnode = some (.Concat callN qN cpos) →
       eval_ast env fuel callN (some s) σ = (.ok r, σ1) →
       σ1.tree.get? qN = some (.FnInvoke q [] qpos) →
       scopeFind q s = some v →
       (eval_ast env (fuel + 1) cnode (some s) σ).1 = .ok (r ++ v)) ∧
    (∀ (w : Warnings) (ev : EvalFn) (callee : String) (cas : List node_t)
       (ps : List String) (acc : Scope) (args : Option Scope) (σ σ2 : EvalState)
       (s2 : Scope) (x : String),
       eval_args w ev callee cas ps acc args σ = (.ok s2, σ2) →
       (∀ p ∈ ps, p ≠ x) →
       scopeFind x s2 = scopeFind x acc) := by
  constructor
  · intro env fuel cnode callN qN cpos qpos q s v r σ σ1 hc hcall hq2 hs
    cases fuel with
    | zero =>
      rw [eval_ast] at hcall
      exact absurd hcall (by simp)
    | succ g =>
      have hq1 : (eval_ast env (g + 1) qN (some s) σ1).1 = .ok v := by
        rw [eval_ast]
        simp only [hq2, hs]
        simp
      rcases hqe : eval_ast env (g + 1) qN (some s) σ1 with ⟨rq, σq⟩
      rw [hqe] at hq1
      simp only at hq1
      rw [eval_ast]
      simp only [hc, hcall, hqe, hq1]
  · intro w ev callee cas ps acc args σ σ2 s2 x h hx
    exact eval_args_keeps_unbound w ev callee cas ps acc args σ σ2 s2 x h hx

/-- C5 witness: `let f(q) => "lit"` called as `f("W")` (its callee scope
overwrites `q` with "W"), then the caller reads its own parameter `q` and
still sees "V". -/
theorem c5_caller_scope_isolated_witness :
    (eval_ast envInert 3 5 (some [("q", "V")]) state_c5).1 = .ok "litV" :=
  c5_caller_scope_isolated.1 envInert 2 5 3 4 0 0 "q" [("q", "V")] "V" "lit"
    state_c5 state_c5 rfl rfl rfl rfl

/-! ## C6 -/

/-- A run of mismatching arms is consumed by the `find_if` scan without a
result: the scan over `pre ++ cs2` continues on `cs2` from the state the
mismatching prefix produced. -/
theorem eval_cases_noMatchRun
    (env : Env) (fuel : Nat) (tv : String) (args : Option Scope)
    (pre cs2 : List (node_t × node_t)) (σ0 σk : EvalState)
    (h : NoMatchRun env fuel tv args pre σ0 σk) :
    eval_cases (eval_ast env fuel) tv (pre ++ cs2) args σ0 =
      eval_cases (eval_ast env fuel) tv cs2 args σk := by
  induction pre generalizing σ0 with
  | nil =>
    simp only [NoMatchRun] at h
    subst h
    rfl
  | cons hd tl ih =>
    obtain ⟨p, b⟩ := hd
    simp only [NoMatchRun] at h
    obtain ⟨pv, σm, hev, hne, hrest⟩ := h
    simp only [List.cons_append, eval_cases, hev]
    rw [if_neg hne]
    exact ih σm hrest

/-- C6: the `Map` visitor evaluates the test expression once (its single
evaluation is the only use of `test`), then walks the arms in declared
order. First conjunct: if the patterns before position j all evaluate to
values different from the test string and pattern j evaluates equal, the
result is the evaluation of body j — for every list of later arms `post`,
which are never evaluated. Second and third conjuncts: if every arm
mismatches, the default is evaluated when present and evaluation fails
with "no matches found." when the default is the sentinel. -/
theorem c6_map_first_match_wins :
    (∀ (env : Env) (fuel : Nat) (mnode test pj bj : node_t) (mpos : Pos)
       (pre post : List (node_t × node_t)) (dflt : Option node_t)
       (args : Option Scope) (σ σ0 σk σm : EvalState) (tv : String)
       (res : EResult × EvalState),
       σ.tree.get? mnode = some (.Map test (pre ++ (pj, bj) :: post) dflt mpos) →
       eval_ast env fuel test args σ = (.ok tv, σ0) →
       NoMatchRun env fuel tv args pre σ0 σk →
       eval_ast env fuel pj args σk = (.ok tv, σm) →
       eval_ast env fuel bj args σm = res →
       eval_ast env (fuel + 1) mnode args σ = res) ∧
    (∀ (env : Env) (fuel : Nat) (mnode test d : node_t) (mpos : Pos)
       (arms : List (node_t × node_t)) (args : Option Scope) (σ σ0 σk : EvalState)
       (tv : String) (res : EResult × EvalState),
       σ.tree.get? mnode = some (.Map test arms (some d) mpos) →
       eval_ast env fuel test args σ = (.ok tv, σ0) →
       NoMatchRun env fuel tv args arms σ0 σk →
       eval_ast env fuel d args σk = res →
       eval_ast env (fuel + 1) mnode args σ = res) ∧
    (∀ (env : Env) (fuel : Nat) (mnode test : node_t) (mpos : Pos)
       (arms : List (node_t × node_t)) (args : Option Scope) (σ σ0 σk : EvalState)
       (tv : String),
       σ.tree.get? mnode = some (.Map test arms none mpos) →
       eval_ast env fuel test args σ = (.ok tv, σ0) →
       NoMatchRun env fuel tv args arms σ0 σk →
       eval_ast env (fuel + 1) mnode args σ = (.error (.exc mpos "no matches found."), σk)) := by
  refine ⟨?_, ?_, ?_⟩
  · intro env fuel mnode test pj bj mpos pre post dflt args σ σ0 σk σm tv res hm ht hpre hpj hbj
    rw [eval_ast]
    simp only [hm, ht]
    rw [eval_cases_noMatchRun env fuel tv args pre ((pj, bj) :: post) σ0 σk hpre]
    simp only [eval_cases, hpj, if_true]
    exact hbj
  · intro env fuel mnode test d mpos arms args σ σ0 σk tv res hm ht harms hd
    rw [eval_ast]
    simp only [hm, ht]
    have h2 := eval_cases_noMatchRun env fuel tv args arms [] σ0 σk harms
    rw [List.append_nil] at h2
    rw [h2]
    simp only [eval_cases]
    exact hd
  · intro env fuel mnode test mpos arms args σ σ0 σk tv hm ht harms
    rw [eval_ast]
    simp only [hm, ht]
    have h2 := eval_cases_noMatchRun env fuel tv args arms [] σ0 σk harms
    rw [List.append_nil] at h2
    rw [h2]
    simp only [eval_cases]

/-- C6 witness: `match "b" { "a" -> "1", "b" -> "2", "x" -> "3" }` returns
"2" through the first-match conjunct; the pattern "x" after the match is
never evaluated. -/
theorem c6_map_first_match_wins_witness :
    eval_ast envInert 2 7 none (mkState tree_c6) = (.ok "2", mkState tree_c6) :=
  c6_map_first_match_wins.1 envInert 1 7 0 3 4 9 [(1, 2)] [(5, 6)] none none
    (mkState tree_c6) (mkState tree_c6) (mkState tree_c6) (mkState tree_c6) "b"
    (.ok "2", mkState tree_c6) rfl rfl
    (by simp only [NoMatchRun]; exact ⟨"a", mkState tree_c6, rfl, by decide, rfl⟩) rfl rfl

/-! ## C9 amended -/

theorem strFind_some_occurrence (s p : List Char) (i : Nat) (h : strFind s p = some i) :
    i ≤ s.length ∧ p.isPrefixOf (s.drop i) = true := by
  induction s generalizing i with
  | nil =>
    rw [strFind] at h
    split at h
    · injection h with h0
      subst h0
      exact ⟨Nat.le_refl 0, by assumption⟩
    · simp at h
  | cons c t ih =>
    rw [strFind] at h
    split at h
    · injection h with h0
      subst h0
      exact ⟨Nat.zero_le _, by assumption⟩
    · cases hft : strFind t p with
      | none => rw [hft] at h; simp at h
      | some j =>
        rw [hft] at h
        simp only [Option.map_some'] at h
        injection h with h0
        subst h0
        obtain ⟨hle, hpref⟩ := ih j hft
        exact ⟨by simp [List.length_cons]; omega, by simpa [List.drop_succ_cons] using hpref⟩

theorem strFind_none_iff (s p : List Char) : strFind s p = none ↔ ¬ IsSubstrOf p s := by
  induction s with
  | nil =>
    rw [strFind]
    split
    · rename_i hpp
      have hpn : p = [] := List.prefix_nil.mp (List.isPrefixOf_iff_prefix.mp hpp)
      subst hpn
      exact iff_of_false (by simp) (fun hn => hn ⟨[], [], rfl⟩)
    · rename_i hpp
      refine iff_of_true rfl ?_
      rintro ⟨l, r, heq⟩
      have hl : p = [] := by
        have := heq.symm
        simp only [List.append_eq_nil] at this
        exact this.1.2
      subst hl
      exact hpp (by rfl)
  | cons c t ih =>
    rw [strFind]
    split
    · rename_i hpp
      obtain ⟨tt, htt⟩ := List.isPrefixOf_iff_prefix.mp hpp
      exact iff_of_false (by simp) (fun hn => hn ⟨[], tt, by simp [htt.symm]⟩)
    · rename_i hpp
      rw [Option.map_eq_none', ih]
      constructor
      · rintro hnt ⟨l, r, heq⟩
        cases l with
        | nil =>
          simp only [List.nil_append] at heq
          exact hpp (List.isPrefixOf_iff_prefix.mpr ⟨r, heq.symm⟩)
        | cons x xs =>
          rw [List.cons_append, List.cons_append] at heq
          injection heq with _ heq2
          exact hnt ⟨xs, r, heq2⟩
      · rintro hnct ⟨l, r, heq⟩
        exact hnct ⟨c :: l, r, by simp [heq]⟩

/-- C9 amended: `find(s, p)` returns the empty string iff `p` is not a
substring of `s`; when an occurrence exists at first index i the returned
string is the decimal rendering of i; and for nonempty p that index
satisfies `slice(s, i, i + |p| - 1) = p`. (For empty p the slice equation
fails, see the counterexample.) -/
theorem c9_find_slice_relation (s p : String) :
    (findFun s p = "" ↔ ¬ IsSubstrOf p.data s.data) ∧
    (∀ i : Nat, strFind s.data p.data = some i → findFun s p = natToDec i) ∧
    (∀ i : Nat, p ≠ "" → strFind s.data p.data = some i →
      sliceCore s.data (i : Int) ((i : Int) + (p.data.length : Int) - 1) = .ok p.data) := by
  refine ⟨?_, ?_, ?_⟩
  · cases hf : strFind s.data p.data with
    | none =>
      simp only [findFun, hf]
      exact iff_of_true trivial ((strFind_none_iff _ _).mp hf)
    | some i =>
      simp only [findFun, hf]
      obtain ⟨hile, hpref⟩ := strFind_some_occurrence _ _ _ hf
      obtain ⟨tt, htt⟩ := List.isPrefixOf_iff_prefix.mp hpref
      refine iff_of_false (natToDec_ne_empty i) (fun hn => hn ⟨s.data.take i, tt, ?_⟩)
      rw [List.append_assoc, htt]
      exact (List.take_append_drop i s.data).symm
  · intro i hf
    simp only [findFun, hf]
  · intro i hp hf
    obtain ⟨hile, hpref⟩ := strFind_some_occurrence _ _ _ hf
    obtain ⟨tt, htt⟩ := List.isPrefixOf_iff_prefix.mp hpref
    have hpne : p.data ≠ [] := by
      intro hh
      exact hp (String.ext (by rw [hh]))
    have hplen : 1 ≤ p.data.length := by
      cases hd : p.data with
      | nil => exact absurd hd hpne
      | cons a b => simp [hd]
    have hlen : i + p.data.length ≤ s.data.length := by
      have hgl := congrArg List.length htt
      simp only [List.length_append, List.length_drop] at hgl
      omega
    simp only [sliceCore]
    split_ifs
    all_goals try (exfalso; omega)
    have e1 : ((i : Int)).toNat = i := Int.toNat_ofNat i
    have e2 : (((i : Int) + (p.data.length : Int) - 1) - (i : Int) + 1).toNat =
        p.data.length := by omega
    rw [e1, e2, ← htt, List.take_left]

/-- C9 witness: `find("hello", "ll")` returns "2", and
`slice("hello", 2, 2 + 2 - 1)` returns "ll". -/
theorem c9_find_slice_relation_witness :
    sliceCore "hello".data ((2 : Nat) : Int)
      (((2 : Nat) : Int) + ("ll".data.length : Int) - 1) = .ok "ll".data :=
  (c9_find_slice_relation "hello" "ll").2.2 2 (by decide) rfl

/-- C4 amended: on first evaluation of a `Var` node, the body node is
replaced in the arena by a `String` holding the evaluated result, the `Var`
node itself is replaced by a zero-parameter `Fn` whose identifier is the
mangled name `cat(x, 0)`, the definition is pushed in the function table
under the arity-0 key, and the empty string is returned. -/
theorem c4_var_first_eval
    (env : Env) (fuel : Nat) (vid body : node_t) (name : String) (pos : Pos)
    (args : Option Scope) (σ σ1 : EvalState) (v : String)
    (hn : σ.tree.get? vid = some (.Var name body pos))
    (hbody : eval_ast env fuel body args σ = (.ok v, σ1))
    (hne : body ≠ vid)
    (hb1 : body < σ1.tree.length)
    (hv1 : vid < σ1.tree.length) :
    (eval_ast env (fuel + 1) vid args σ).1 = .ok "" ∧
    (eval_ast env (fuel + 1) vid args σ).2.tree.get? body = some (.String v pos) ∧
    (eval_ast env (fuel + 1) vid args σ).2.tree.get? vid =
      some (.Fn (mangle name 0) [] body pos) ∧
    ftFind (mangle name 0) (eval_ast env (fuel + 1) vid args σ).2.functions =
      some (((ftFind (mangle name 0) σ1.functions).getD []) ++ [vid]) := by
  rw [eval_ast]
  simp only [hn, hbody]
  cases hf : ftFind (mangle name 0) σ1.functions with
  | none =>
    simp only [hf]
    refine ⟨trivial, ?_, ?_, ?_⟩
    · rw [list_get_set_other _ _ _ _ (Ne.symm hne), list_get_set_same _ _ _ hb1]
    · exact list_get_set_same _ _ _ (by simpa using hv1)
    · rw [ftFind_ftInsert_new _ _ _ hf]
      simp
  | some stack =>
    simp only [hf, apply_ite EvalState.functions, apply_ite EvalState.tree, warn, ite_self]
    refine ⟨trivial, ?_, ?_, ?_⟩
    · rw [list_get_set_other _ _ _ _ (Ne.symm hne), list_get_set_same _ _ _ hb1]
    · exact list_get_set_same _ _ _ (by simpa using hv1)
    · rw [ftFind_ftSet_found (mangle name 0) (stack ++ [vid]) stack σ1.functions hf]
      simp

/-- C4 amended witness: `let x => "A"` through the amended theorem. -/
theorem c4_var_first_eval_witness :
    (eval_ast envWarn 2 1 none (mkState tree_c4)).1 = .ok "" ∧
    (eval_ast envWarn 2 1 none (mkState tree_c4)).2.tree.get? 0 = some (.String "A" 0) ∧
    (eval_ast envWarn 2 1 none (mkState tree_c4)).2.tree.get? 1 =
      some (.Fn (mangle "x" 0) [] 0 0) ∧
    ftFind (mangle "x" 0) (eval_ast envWarn 2 1 none (mkState tree_c4)).2.functions =
      some (((ftFind (mangle "x" 0) (mkState tree_c4).functions).getD []) ++ [1]) :=
  c4_var_first_eval envWarn 1 1 0 "x" 0 none (mkState tree_c4) (mkState tree_c4) "A"
    rfl rfl (by decide) (by decide) (by decide)

/-- C8 witness: the statement list `["a"]` evaluated through the amended
theorem: the `Pre` returns "a", the `Block` returns "", and the final
states agree. -/
theorem c8_pre_empty_prefix_vs_block_witness :
    eval_ast envWarn 3 2 none (mkState tree_c8) = (.ok "a", mkState tree_c8) ∧
    eval_ast envWarn 3 3 none (mkState tree_c8) = (.ok "", mkState tree_c8) ∧
    (("a" : String) = "" →
      eval_ast envWarn 3 2 none (mkState tree_c8) = eval_ast envWarn 3 3 none (mkState tree_c8)) :=
  c8_pre_empty_prefix_vs_block envWarn 1 2 3 1 [0] 0 0 0 none (mkState tree_c8)
    (mkState tree_c8) "a" rfl rfl rfl rfl

end Wpp
